import Mathlib

/-!
Shallow embedding of the OpenFisca core slice: the `Unit` date-unit
enumeration, `Instant` calendar arithmetic (`instant_.py`), the period
parsing helpers (`periods/helpers.py`) and the entity consistency check
(`entities/helpers.py`, `entities/entity.py`).  Python integers are
modelled as `Int`, fallible paths (raised errors, failed asserts) as
`Option`/`none`, and the few built-in string operations the code relies
on (`str.lower`, `str.capitalize`, `str.split`, `int(...)`,
`datetime.strptime` for the three fixed formats) are modelled over ASCII
strings, which is the alphabet the parsers accept.
-/

namespace OpenFisca

/-- ASCII model of Python `str.lower` on a single character. -/
def lowerChar (c : Char) : Char :=
  match c with
  | 'A' => 'a' | 'B' => 'b' | 'C' => 'c' | 'D' => 'd' | 'E' => 'e'
  | 'F' => 'f' | 'G' => 'g' | 'H' => 'h' | 'I' => 'i' | 'J' => 'j'
  | 'K' => 'k' | 'L' => 'l' | 'M' => 'm' | 'N' => 'n' | 'O' => 'o'
  | 'P' => 'p' | 'Q' => 'q' | 'R' => 'r' | 'S' => 's' | 'T' => 't'
  | 'U' => 'u' | 'V' => 'v' | 'W' => 'w' | 'X' => 'x' | 'Y' => 'y'
  | 'Z' => 'z'
  | other => other

/-- ASCII model of Python uppercasing of a single character. -/
def upperChar (c : Char) : Char :=
  match c with
  | 'a' => 'A' | 'b' => 'B' | 'c' => 'C' | 'd' => 'D' | 'e' => 'E'
  | 'f' => 'F' | 'g' => 'G' | 'h' => 'H' | 'i' => 'I' | 'j' => 'J'
  | 'k' => 'K' | 'l' => 'L' | 'm' => 'M' | 'n' => 'N' | 'o' => 'O'
  | 'p' => 'P' | 'q' => 'Q' | 'r' => 'R' | 's' => 'S' | 't' => 'T'
  | 'u' => 'U' | 'v' => 'V' | 'w' => 'W' | 'x' => 'X' | 'y' => 'Y'
  | 'z' => 'Z'
  | other => other

/-- ASCII model of Python `str.lower`. -/
def pyLower (s : String) : String := String.mk (s.data.map lowerChar)

/-- ASCII model of Python `str.capitalize`: first character uppercased,
the rest lowercased. -/
def pyCapitalize (s : String) : String :=
  match s.data with
  | [] => ""
  | c :: r => String.mk (upperChar c :: r.map lowerChar)

/-- Python `calendar.isleap`: Gregorian leap-year rule (Python `%` is
Euclidean remainder for a positive modulus, i.e. `Int.emod`). -/
def isLeapYear (y : Int) : Bool :=
  Int.emod y 4 == 0 && (Int.emod y 100 != 0 || Int.emod y 400 == 0)

/-- Day count of month `m` of year `y`, i.e. `calendar.monthrange(y, m)[1]`.
`monthrange` is only ever reached with `1 ≤ m ≤ 12` on the embedded code
paths; outside that range (where Python would raise `IllegalMonthError`)
this total model returns 31. -/
def monthLastDay (y m : Int) : Int :=
  if m == 2 then (if isLeapYear y then 29 else 28)
  else if m == 4 || m == 6 || m == 9 || m == 11 then 30
  else 31

/-- Embeds `periods.Instant`: a (year, month, day) triple.  Construction performs
no validation, exactly as in the source. -/
structure Instant where
  year : Int
  month : Int
  day : Int
deriving DecidableEq

/-- A calendar-valid instant: this is the validity notion of
`datetime.date` restricted to the month/day components (the offset
arithmetic never builds a `datetime.date`, so the year is unconstrained
there). -/
def Instant.Valid (i : Instant) : Prop :=
  1 ≤ i.month ∧ i.month ≤ 12 ∧ 1 ≤ i.day ∧ i.day ≤ monthLastDay i.year i.month

instance (i : Instant) : Decidable i.Valid := by
  unfold Instant.Valid; infer_instance

/-- The `while day > month_last_day` loop of the positive day-offset branch
of `Instant.offset`: the day counter is reduced by the length of the month
it overflows, moving to the next month (wrapping `13 → 1` into the next
year). -/
def dayIncLoop (y m d : Int) : Instant :=
  if monthLastDay y m < d then
    if m + 1 == 13 then dayIncLoop (y + 1) 1 (d - monthLastDay y m)
    else dayIncLoop y (m + 1) (d - monthLastDay y m)
  else ⟨y, m, d⟩
termination_by d.toNat
decreasing_by
  · have h28 : 28 ≤ monthLastDay y m := by
      unfold monthLastDay; split
      · split <;> omega
      · split <;> omega
    omega
  · have h28 : 28 ≤ monthLastDay y m := by
      unfold monthLastDay; split
      · split <;> omega
      · split <;> omega
    omega

/-- The `while day < 1` loop of the negative day-offset branch of
`Instant.offset`: the day counter borrows the length of the previous month
(wrapping `0 → 12` into the previous year). -/
def dayDecLoop (y m d : Int) : Instant :=
  if d < 1 then
    if m - 1 == 0 then dayDecLoop (y - 1) 12 (d + monthLastDay (y - 1) 12)
    else dayDecLoop y (m - 1) (d + monthLastDay y (m - 1))
  else ⟨y, m, d⟩
termination_by (1 - d).toNat
decreasing_by
  · have h28 : 28 ≤ monthLastDay (y - 1) 12 := by
      unfold monthLastDay; split
      · split <;> omega
      · split <;> omega
    omega
  · have h28 : 28 ≤ monthLastDay y (m - 1) := by
      unfold monthLastDay; split
      · split <;> omega
      · split <;> omega
    omega

/-- The `while month > 12` loop of the positive month-offset branch. -/
def monthIncLoop (y m : Int) : Int × Int :=
  if 12 < m then monthIncLoop (y + 1) (m - 12) else (y, m)
termination_by (m - 12).toNat
decreasing_by omega

/-- The `while month < 1` loop of the negative month-offset branch. -/
def monthDecLoop (y m : Int) : Int × Int :=
  if m < 1 then monthDecLoop (y - 1) (m + 12) else (y, m)
termination_by (1 - m).toNat
decreasing_by omega

/-- Embeds `periods.unit.Unit`: the four date units. -/
inductive Unit where
  | day
  | month
  | year
  | eternity
deriving DecidableEq, Fintype

/-- The `Unit.key` attribute. -/
def Unit.key : Unit → String
  | .day => "day"
  | .month => "month"
  | .year => "year"
  | .eternity => "eternity"

/-- The `Unit.weight` attribute. -/
def Unit.weight : Unit → Int
  | .day => 100
  | .month => 200
  | .year => 300
  | .eternity => 400

/-- The enum member names, i.e. the keys of `Unit._member_map_`. -/
def Unit.memberName : Unit → String
  | .day => "Day"
  | .month => "Month"
  | .year => "Year"
  | .eternity => "Eternity"

/-- Lookup `Unit._member_map_[s.capitalize()]`; `none` models the `KeyError` a
missing name raises. -/
def memberByCapitalized (s : String) : Option Unit :=
  let n := pyCapitalize s
  if n == "Day" then some .day
  else if n == "Month" then some .month
  else if n == "Year" then some .year
  else if n == "Eternity" then some .eternity
  else none

/-- Comparison `Unit.__eq__` against a string: `self.key == value.lower()`. -/
def Unit.eqStr (u : Unit) (s : String) : Bool := u.key == pyLower s

/-- Comparison `Unit.__lt__` between two units: by weight. -/
def Unit.ltU (a b : Unit) : Bool := decide (a.weight < b.weight)

/-- Python `s < u` for a string `s` and a `Unit` `u`: `str.__lt__` returns
`NotImplemented`, so this dispatches to `u.__gt__(s)`, i.e.
`self._member_map_[value.capitalize()].__lt__(self)`.  `none` models the
`KeyError` for a string naming no unit. -/
def strLtU (s : String) (u : Unit) : Option Bool :=
  (memberByCapitalized s).map fun v => decide (v.weight < u.weight)

/-- Python `s > u`: dispatches to `u.__lt__(s)`, i.e.
`self.weight < self._member_map_[value.capitalize()].weight`. -/
def strGtU (s : String) (u : Unit) : Option Bool :=
  (memberByCapitalized s).map fun v => decide (u.weight < v.weight)

/-- The tuple `Unit.ethereal()`: the keys of the three non-eternity units, in
increasing-weight order. -/
def Unit.ethereal : List String := ["day", "month", "year"]

/-- The tuple `Unit.eternal()`. -/
def Unit.eternal : List String := ["eternity"]

/-- The case variants of a character: itself, plus its uppercase form when
distinct. -/
def caseOptions (c : Char) : List Char :=
  if upperChar c == c then [c] else [c, upperChar c]

/-- All strings obtained from a word by re-casing each letter
independently. -/
def caseVariantsL : List Char → List (List Char)
  | [] => [[]]
  | c :: r => ((caseVariantsL r).map fun t => (caseOptions c).map (· :: t)).flatten

/-- The case-insensitive spellings of a unit key (for "day": "day", "Day",
"dAy", ..., "DAY"). -/
def Unit.caseVariants (u : Unit) : List String :=
  (caseVariantsL u.key.data).map String.mk

/-- The first argument of `Instant.offset`: an integer amount or one of the
two string sentinels.  Any other Python value fails the
`assert isinstance(offset, int)` in the source, which `Instant.offset`
models as `none`, so it is not represented here. -/
inductive OffsetArg where
  | num (n : Int)
  | firstOf
  | lastOf
deriving DecidableEq

/-- Embeds `Instant.offset`.  `none` models the failing
`assert unit in Unit.ethereal()` (the unit argument is normalised to a
`Unit` value, which is faithful because `Unit.__eq__` identifies a unit
with any case-insensitive spelling of its key). -/
def Instant.offset (i : Instant) (arg : OffsetArg) (unit : Unit) : Option Instant :=
  if unit.key ∈ Unit.ethereal then
    match arg with
    | .firstOf =>
        if unit == .month then some ⟨i.year, i.month, 1⟩
        else if unit == .year then some ⟨i.year, 1, 1⟩
        else some ⟨i.year, i.month, i.day⟩
    | .lastOf =>
        if unit == .month then some ⟨i.year, i.month, monthLastDay i.year i.month⟩
        else if unit == .year then some ⟨i.year, 12, 31⟩
        else some ⟨i.year, i.month, i.day⟩
    | .num n =>
        if unit == .day then
          let d := i.day + n
          if n < 0 then some (dayDecLoop i.year i.month d)
          else if 0 < n then some (dayIncLoop i.year i.month d)
          else some ⟨i.year, i.month, d⟩
        else if unit == .month then
          let m := i.month + n
          let p :=
            if n < 0 then monthDecLoop i.year m
            else if 0 < n then monthIncLoop i.year m
            else (i.year, m)
          let L := monthLastDay p.1 p.2
          some ⟨p.1, p.2, if L < i.day then L else i.day⟩
        else
          let y := i.year + n
          let L := monthLastDay y i.month
          some ⟨y, i.month, if L < i.day then L else i.day⟩
  else none

/-- A decimal digit. -/
def isDigitChar (c : Char) : Bool := '0' ≤ c && c ≤ '9'

/-- Numeric value of a digit string (most significant first). -/
def digitsVal (l : List Char) : Int :=
  l.foldl (fun a c => 10 * a + ((c.toNat : Int) - 48)) 0

/-- All characters are decimal digits. -/
def allDigits (l : List Char) : Bool := l.all isDigitChar

/-- Python `str.split(sep)` for a one-character separator, on character lists. -/
def splitSep (sep : Char) : List Char → List (List Char)
  | [] => [[]]
  | c :: r =>
      if c == sep then [] :: splitSep sep r
      else
        match splitSep sep r with
        | [] => [[c]]
        | g :: gs => (c :: g) :: gs

/-- The `%Y` directive of `datetime.strptime`: exactly four digits
(`TimeRE` uses the pattern `\d\d\d\d`); the `datetime` constructor then
requires `year ≥ 1` (`MINYEAR`). -/
def matchYearPat (l : List Char) : Option Int :=
  if l.length = 4 ∧ allDigits l = true ∧ 1 ≤ digitsVal l then some (digitsVal l)
  else none

/-- The `%m` directive: one or two digits with value 1..12 (the pattern
`1[0-2]|0[1-9]|[1-9]`, which excludes `0` and `00`). -/
def matchMonthPat (l : List Char) : Option Int :=
  if (l.length = 1 ∨ l.length = 2) ∧ allDigits l = true
      ∧ 1 ≤ digitsVal l ∧ digitsVal l ≤ 12 then
    some (digitsVal l)
  else none

/-- The `%d` directive: one or two digits with value 1..31 (the pattern
`3[01]|[12]\d|0[1-9]|[1-9]`). -/
def matchDayPat (l : List Char) : Option Int :=
  if (l.length = 1 ∨ l.length = 2) ∧ allDigits l = true
      ∧ 1 ≤ digitsVal l ∧ digitsVal l ≤ 31 then
    some (digitsVal l)
  else none

/-- Embeds `period.parse_simple_period` from `periods/helpers.py`: try
`%Y`, then `%Y-%m`, then `%Y-%m-%d`.  The source wraps the result as a
size-1 `Period`; this model returns the (unit, start instant) pair and the
call sites add the size.  `strptime` anchors each directive between the
literal dashes of the format and then validates the day against the month
length via the `datetime` constructor. -/
def parse_simple_period (value : String) : Option (Unit × Instant) :=
  match splitSep '-' value.data with
  | [ys] => (matchYearPat ys).map fun y => (Unit.year, ⟨y, 1, 1⟩)
  | [ys, ms] =>
      match matchYearPat ys, matchMonthPat ms with
      | some y, some m => some (Unit.month, ⟨y, m, 1⟩)
      | _, _ => none
  | [ys, ms, ds] =>
      match matchYearPat ys, matchMonthPat ms, matchDayPat ds with
      | some y, some m, some d =>
          if d ≤ monthLastDay y m then some (Unit.day, ⟨y, m, d⟩) else none
      | _, _, _ => none
  | _ => none

/-- Python whitespace stripped by `int(str)` (ASCII part). -/
def isPySpace (c : Char) : Bool :=
  c == ' ' || c == '\t' || c == '\n' || c == '\r' || c == '\x0b' || c == '\x0c'

/-- Strip leading and trailing whitespace. -/
def stripPySpaces (l : List Char) : List Char :=
  ((l.dropWhile isPySpace).reverse.dropWhile isPySpace).reverse

/-- After an initial digit: further digits, with single underscores allowed
between digits (an underscore must be followed by a digit). -/
def pyIntTail : List Char → Bool
  | [] => true
  | c :: r =>
      if c == '_' then
        match r with
        | [] => false
        | c2 :: r2 => isDigitChar c2 && pyIntTail r2
      else isDigitChar c && pyIntTail r

/-- A valid digit body for `int(str)`: nonempty, starts with a digit. -/
def pyIntBody : List Char → Bool
  | [] => false
  | c :: r => isDigitChar c && pyIntTail r

/-- Models Python `int(str)` on ASCII strings: optional surrounding
whitespace, an optional sign, then digits with single underscores allowed
between digits.  `none` models the `ValueError`. -/
def pyInt (s : String) : Option Int :=
  let l := stripPySpaces s.data
  let sign : Int := if l.head? = some '-' then -1 else 1
  let body := if l.head? = some '+' ∨ l.head? = some '-' then l.tail else l
  if pyIntBody body then some (sign * digitsVal (body.filter fun c => c != '_'))
  else none

/-- The unit slot of a `Period` triple: the source stores either a `Unit`
member (simple forms, instants, integers) or a raw string (`'eternity'`
and the compound form, which stores `components[0]` unchanged).  Under
`Unit.__eq__` the string `"year"` and `Unit.Year` are equal, but they are
distinct objects, which this sum type keeps apart. -/
inductive UnitField where
  | ofU (u : Unit)
  | ofS (s : String)
deriving DecidableEq

/-- Python value-equality between a unit slot and a `Unit` member
(`str == Unit` dispatches to `Unit.__eq__`, which lowercases the string). -/
def UnitField.pyEq : UnitField → Unit → Bool
  | .ofU v, u => v == u
  | .ofS s, u => u.eqStr s

/-- The size slot of a `Period` triple: an `int`, or the `float("inf")`
stored for the eternity period. -/
inductive PeriodSize where
  | int (n : Int)
  | inf
deriving DecidableEq

/-- Embeds `periods.Period`: a (unit, start, size) triple.  The class is a bare
`tuple` subclass: construction performs no validation (the doctests of
`periods/helpers.py` build `Period` values with arbitrary unit spellings
and sizes). -/
structure Period where
  unit : UnitField
  start : Instant
  size : PeriodSize
deriving DecidableEq

/-- Python `datetime.date.min`, i.e. 0001-01-01. -/
def dateMin : Instant := ⟨1, 1, 1⟩

/-- The eternity period built by `period`:
`Period(('eternity', instant(datetime.date.min), float("inf")))`. -/
def eternityPeriod : Period := ⟨.ofS "eternity", dateMin, .inf⟩

/-- The final steps of the compound branch of `period`: the ambiguity
rejection `if base_period.unit > unit: raise_error(value)` — where `unit`
is the string `components[0]`, so `Unit.__gt__` looks it up via
`_member_map_[unit.capitalize()]` — followed by
`Period((unit, base_period.start, size))`. -/
def mkCompound (unitStr : String) (bu : Unit) (st : Instant) (k : Int) : Option Period :=
  match memberByCapitalized unitStr with
  | some uu => if uu.weight < bu.weight then none else some ⟨.ofS unitStr, st, .int k⟩
  | none => none

/-- The inputs `period` is given in the claims: an existing `Period` or
`Instant`, a string, an `int`, or a `Unit` member.  Other Python types
reach `raise_error` unconditionally. -/
inductive PeriodInput where
  | ofPeriod (p : Period)
  | ofInstant (i : Instant)
  | ofStr (s : String)
  | ofInt (n : Int)
  | ofUnit (u : Unit)

/-- Embeds `periods.helpers.period` (the spec's `parse_period`).  `none`
models the raised `ValueError` (`raise_error`).  Notes kept from the
source: the eternity test `value == 'ETERNITY' or value == Unit.Eternity`
reduces, via `Unit.__eq__`, to `value.lower() == 'eternity'` for strings
and to `value is Unit.Eternity` for `Unit` members, and is false for every
`int`; a `Unit` member other than `Eternity` then fails every
`isinstance` test and reaches `raise_error`. -/
def period (value : PeriodInput) : Option Period :=
  match value with
  | .ofPeriod p => some p
  | .ofInstant i => some ⟨.ofU .day, i, .int 1⟩
  | .ofUnit u => if u == .eternity then some eternityPeriod else none
  | .ofInt n => some ⟨.ofU .year, ⟨n, 1, 1⟩, .int 1⟩
  | .ofStr s =>
      if s == "ETERNITY" || pyLower s == "eternity" then some eternityPeriod
      else
        match parse_simple_period s with
        | some (u, st) => some ⟨.ofU u, st, .int 1⟩
        | none =>
            if ':' ∈ s.data then
              match splitSep ':' s.data with
              | us :: ds :: rest =>
                  let unitStr := String.mk us
                  if unitStr ∈ Unit.ethereal then
                    match parse_simple_period (String.mk ds) with
                    | none => none
                    | some (bu, st) =>
                        match rest with
                        | [] => mkCompound unitStr bu st 1
                        | [ss] =>
                            match pyInt (String.mk ss) with
                            | some k => mkCompound unitStr bu st k
                            | none => none
                        | _ => none
                  else none
              | _ => none
            else none

/-- Specification-side definition (claim C4): the successor of a calendar
date under standard Gregorian rules. -/
def nextDay (i : Instant) : Instant :=
  if i.day < monthLastDay i.year i.month then ⟨i.year, i.month, i.day + 1⟩
  else if i.month < 12 then ⟨i.year, i.month + 1, 1⟩
  else ⟨i.year + 1, 1, 1⟩

/-- Specification-side definition (claim C4): the predecessor of a
calendar date under standard Gregorian rules. -/
def prevDay (i : Instant) : Instant :=
  if 1 < i.day then ⟨i.year, i.month, i.day - 1⟩
  else if 1 < i.month then ⟨i.year, i.month - 1, monthLastDay i.year (i.month - 1)⟩
  else ⟨i.year - 1, 12, 31⟩

/-- Specification-side definition (claim C4): shifting a date by exactly
`n` calendar days, as the `n`-fold successor (or `-n`-fold predecessor). -/
def shiftDays (i : Instant) (n : Int) : Instant :=
  if 0 ≤ n then nextDay^[n.toNat] i else prevDay^[(-n).toNat] i

mutual

/-- Embeds `entities.Entity` / `entities.GroupEntity` as value objects:
`isGroup` records the concrete class (the generated dataclass `__eq__`
of either class returns `NotImplemented` on the other class, so two
entities of different classes are never equal); then the four compared
dataclass fields `key`, `plural`, `label`, `doc` (stored post-`dedent`),
and the late-bound `variable` lookup capability, a field with
`compare = False` whose `MethodDescriptor` yields `None` while unset.
The capability takes the variable name and the `check_existence` flag. -/
inductive Entity where
  | mk (isGroup : Bool) (key plural label doc : String)
      (varCapability : Option (String → Bool → Option Variable))

/-- The collaborator `Variable` interface: each variable carries the
entity it is defined for (`Variable.entity`). -/
inductive Variable where
  | mk (entity : Entity)

end

/-- The `variable` descriptor read: `None` when never set. -/
def Entity.varCapability : Entity → Option (String → Bool → Option Variable)
  | .mk _ _ _ _ _ f => f

/-- The `Entity.plural` field. -/
def Entity.plural : Entity → String
  | .mk _ _ p _ _ _ => p

/-- The `Variable.entity` field. -/
def Variable.entity : Variable → Entity
  | .mk e => e

/-- Dataclass equality of entities: same class and equal
`(key, plural, label, doc)`; the `variable` field has `compare = False`
and is ignored. -/
def Entity.eqData : Entity → Entity → Bool
  | .mk g1 k1 p1 l1 d1 _, .mk g2 k2 p2 l2 d2 _ =>
      g1 == g2 && k1 == k2 && p1 == p2 && l1 == l2 && d1 == d2

/-- A single-quote character, used by the error message below. -/
def sq : String := (Char.ofNat 39).toString

/-- The `ValueError` message raised on an entity mismatch:
`os.linesep.join` of the five f-string lines of
`check_variable_defined_for_entity`. -/
def mismatchMessage (variable_name selfPlural otherPlural : String) : String :=
  "You tried to compute the variable " ++ sq ++ variable_name ++ sq ++ " for\n"
    ++ "the entity " ++ sq ++ selfPlural ++ sq ++ "; however the variable\n"
    ++ sq ++ variable_name ++ sq ++ " is defined for " ++ sq ++ otherPlural ++ sq ++ ".\n"
    ++ "Learn more about entities in our documentation:\n"
    ++ "<https://openfisca.org/doc/coding-the-legislation/50_entities.html>."

/-- Embeds `entities.helpers.check_variable_defined_for_entity` (the
`Entity`/`GroupEntity` method bodies are identical): `None` when the
capability is unset, `None` when the lookup finds nothing, and
`raise ValueError(message)` — modelled as `some message` — when the found
variable's entity is not value-equal to the entity being checked.  The
lookup is invoked with `check_existence = True`. -/
def check_variable_defined_for_entity (entity : Entity) (variable_name : String) :
    Option String :=
  match entity.varCapability with
  | none => none
  | some f =>
      match f variable_name true with
      | none => none
      | some v =>
          if Entity.eqData v.entity entity then none
          else some (mismatchMessage variable_name entity.plural v.entity.plural)

/-- A sample group entity for concrete checks. -/
def entB : Entity := .mk true "household" "households" "hl" "hd" none

/-- A sample lookup capability returning a variable defined for `entB`. -/
def lookupW : String → Bool → Option Variable :=
  fun nm _ => if nm == "va" then some (.mk entB) else none

/-- A sample person entity wired with `lookupW`. -/
def entA : Entity := .mk false "person" "persons" "pl" "pd" (some lookupW)

/-! Helper lemmas. -/

theorem monthLastDay_ge (y m : Int) : 28 ≤ monthLastDay y m := by
  unfold monthLastDay; split
  · split <;> omega
  · split <;> omega

theorem monthLastDay_le (y m : Int) : monthLastDay y m ≤ 31 := by
  unfold monthLastDay; split
  · split <;> omega
  · split <;> omega

theorem monthLastDay_twelve (y : Int) : monthLastDay y 12 = 31 := rfl

set_option linter.unusedTactic false in
theorem lowerChar_of_digit (c : Char) (h : isDigitChar c = true) : lowerChar c = c := by
  unfold lowerChar
  split <;> first
    | rfl
    | (exfalso; subst_vars; exact absurd h (by decide))

theorem splitSep_cons (sep c : Char) (r : List Char) :
    splitSep sep (c :: r) =
      if c == sep then [] :: splitSep sep r
      else
        match splitSep sep r with
        | [] => [[c]]
        | g :: gs => (c :: g) :: gs := by
  rw [splitSep]

theorem splitSep_ne_nil (sep : Char) (l : List Char) : splitSep sep l ≠ [] := by
  induction l with
  | nil => simp [splitSep]
  | cons c r ih =>
    rw [splitSep_cons]
    split
    · simp
    · cases hh : splitSep sep r with
      | nil => exact absurd hh ih
      | cons g gs => simp [hh]

theorem splitSep_cons_of_ne (sep c : Char) (r g : List Char) (gs : List (List Char))
    (hc : (c == sep) = false) (hr : splitSep sep r = g :: gs) :
    splitSep sep (c :: r) = (c :: g) :: gs := by
  rw [splitSep_cons, if_neg (by simp [hc]), hr]

theorem splitSep_of_not_mem (sep : Char) (l : List Char) (h : sep ∉ l) :
    splitSep sep l = [l] := by
  induction l with
  | nil => rfl
  | cons c r ih =>
    have hc : (c == sep) = false := by
      simp only [beq_eq_false_iff_ne, ne_eq]
      intro hq
      exact h (hq ▸ List.mem_cons_self c r)
    rw [splitSep_cons_of_ne sep c r r [] hc (ih fun hm => h (List.mem_cons_of_mem _ hm))]

theorem splitSep_append (sep : Char) (a b : List Char) (h : sep ∉ a) :
    splitSep sep (a ++ sep :: b) = a :: splitSep sep b := by
  induction a with
  | nil =>
    rw [List.nil_append, splitSep_cons, if_pos (by simp)]
  | cons c r ih =>
    have hc : (c == sep) = false := by
      simp only [beq_eq_false_iff_ne, ne_eq]
      intro hq
      exact h (hq ▸ List.mem_cons_self c r)
    rw [List.cons_append,
      splitSep_cons_of_ne sep c (r ++ sep :: b) r (splitSep sep b) hc
        (ih fun hm => h (List.mem_cons_of_mem _ hm))]

theorem splitSep_covers (sep : Char) (l : List Char) (c : Char) (hc : c ∈ l) :
    c = sep ∨ ∃ g ∈ splitSep sep l, c ∈ g := by
  induction l with
  | nil => cases hc
  | cons x r ih =>
    unfold splitSep
    by_cases hx : (x == sep) = true
    · rcases List.mem_cons.mp hc with rfl | hcr
      · exact Or.inl (by simpa using hx)
      · rcases ih hcr with h1 | ⟨g, hg, hcg⟩
        · exact Or.inl h1
        · exact Or.inr ⟨g, by simp [hx, hg], hcg⟩
    · cases hsp : splitSep sep r with
      | nil => exact absurd hsp (splitSep_ne_nil sep r)
      | cons g gs =>
        rcases List.mem_cons.mp hc with rfl | hcr
        · exact Or.inr ⟨c :: g, by simp [hx, hsp], List.mem_cons_self c g⟩
        · rcases ih hcr with h1 | ⟨g', hg', hcg'⟩
          · exact Or.inl h1
          · rcases List.mem_cons.mp (hsp ▸ hg') with rfl | hgs
            · exact Or.inr ⟨x :: g', by simp [hx, hsp], List.mem_cons_of_mem x hcg'⟩
            · exact Or.inr ⟨g', by simp [hx, hsp, hgs], hcg'⟩

theorem matchYearPat_spec (l : List Char) (y : Int) (h : matchYearPat l = some y) :
    l.length = 4 ∧ allDigits l = true ∧ 1 ≤ y ∧ digitsVal l = y := by
  unfold matchYearPat at h
  split at h
  · rename_i hcond
    injection h with h'
    exact ⟨hcond.1, hcond.2.1, h' ▸ hcond.2.2, h'⟩
  · cases h

theorem matchMonthPat_spec (l : List Char) (m : Int) (h : matchMonthPat l = some m) :
    allDigits l = true ∧ 1 ≤ m ∧ m ≤ 12 ∧ digitsVal l = m := by
  unfold matchMonthPat at h
  split at h
  · rename_i hcond
    injection h with h'
    exact ⟨hcond.2.1, h' ▸ hcond.2.2.1, h' ▸ hcond.2.2.2, h'⟩
  · cases h

theorem matchDayPat_spec (l : List Char) (d : Int) (h : matchDayPat l = some d) :
    allDigits l = true ∧ 1 ≤ d ∧ d ≤ 31 ∧ digitsVal l = d := by
  unfold matchDayPat at h
  split at h
  · rename_i hcond
    injection h with h'
    exact ⟨hcond.2.1, h' ▸ hcond.2.2.1, h' ▸ hcond.2.2.2, h'⟩
  · cases h

theorem parse_simple_chars (s : String) (x : Unit × Instant)
    (h : parse_simple_period s = some x) :
    ∀ c ∈ s.data, isDigitChar c = true ∨ c = '-' := by
  intro c hc
  unfold parse_simple_period at h
  rcases splitSep_covers '-' s.data c hc with rfl | ⟨g, hg, hcg⟩
  · exact Or.inr rfl
  · left
    cases hsp : splitSep '-' s.data with
    | nil => rw [hsp] at h; simp at h
    | cons l1 t1 =>
      cases t1 with
      | nil =>
        rw [hsp] at h hg
        cases hy : matchYearPat l1 with
        | none => simp [hy] at h
        | some y =>
          have := (matchYearPat_spec l1 y hy).2.1
          have hgl : g = l1 := by simpa using hg
          exact List.all_eq_true.mp this c (hgl ▸ hcg)
      | cons l2 t2 =>
        cases t2 with
        | nil =>
          rw [hsp] at h hg
          cases hy : matchYearPat l1 with
          | none => simp [hy] at h
          | some y =>
            cases hm : matchMonthPat l2 with
            | none => simp [hy, hm] at h
            | some m =>
              have h1 := (matchYearPat_spec l1 y hy).2.1
              have h2 := (matchMonthPat_spec l2 m hm).1
              rcases (by simpa using hg : g = l1 ∨ g = l2) with rfl | rfl
              · exact List.all_eq_true.mp h1 c hcg
              · exact List.all_eq_true.mp h2 c hcg
        | cons l3 t3 =>
          cases t3 with
          | nil =>
            rw [hsp] at h hg
            cases hy : matchYearPat l1 with
            | none => simp [hy] at h
            | some y =>
              cases hm : matchMonthPat l2 with
              | none => simp [hy, hm] at h
              | some m =>
                cases hd : matchDayPat l3 with
                | none => simp [hy, hm, hd] at h
                | some d =>
                  have h1 := (matchYearPat_spec l1 y hy).2.1
                  have h2 := (matchMonthPat_spec l2 m hm).1
                  have h3 := (matchDayPat_spec l3 d hd).1
                  rcases (by simpa using hg : g = l1 ∨ g = l2 ∨ g = l3) with rfl | rfl | rfl
                  · exact List.all_eq_true.mp h1 c hcg
                  · exact List.all_eq_true.mp h2 c hcg
                  · exact List.all_eq_true.mp h3 c hcg
          | cons l4 t4 => rw [hsp] at h; simp at h

theorem parse_simple_no_colon (s : String) (x : Unit × Instant)
    (h : parse_simple_period s = some x) : ':' ∉ s.data := by
  intro hc
  rcases parse_simple_chars s x h ':' hc with hd | hd
  · exact absurd hd (by decide)
  · exact absurd hd (by decide)

theorem monthIncLoop_eq (y m : Int) (h : 1 ≤ m) :
    monthIncLoop y m = (y + (m - 1) / 12, (m - 1) % 12 + 1) := by
  induction y, m using monthIncLoop.induct with
  | case1 y m h12 ih =>
    rw [monthIncLoop, if_pos h12, ih (by omega), Prod.mk.injEq]
    exact ⟨by omega, by omega⟩
  | case2 y m h12 =>
    rw [monthIncLoop, if_neg h12, Prod.mk.injEq]
    exact ⟨by omega, by omega⟩

theorem monthDecLoop_eq (y m : Int) (h : m ≤ 12) :
    monthDecLoop y m = (y + (m - 1) / 12, (m - 1) % 12 + 1) := by
  induction y, m using monthDecLoop.induct with
  | case1 y m h1 ih =>
    rw [monthDecLoop, if_pos h1, ih (by omega), Prod.mk.injEq]
    exact ⟨by omega, by omega⟩
  | case2 y m h1 =>
    rw [monthDecLoop, if_neg h1, Prod.mk.injEq]
    exact ⟨by omega, by omega⟩

theorem nextDay_lt (y m d : Int) (h : d < monthLastDay y m) :
    nextDay ⟨y, m, d⟩ = ⟨y, m, d + 1⟩ := by
  simp [nextDay, h]

theorem nextDay_mid (y m d : Int) (h1 : ¬ d < monthLastDay y m) (h2 : m < 12) :
    nextDay ⟨y, m, d⟩ = ⟨y, m + 1, 1⟩ := by
  simp [nextDay, h1, h2]

theorem nextDay_end (y m d : Int) (h1 : ¬ d < monthLastDay y m) (h2 : ¬ m < 12) :
    nextDay ⟨y, m, d⟩ = ⟨y + 1, 1, 1⟩ := by
  simp [nextDay, h1, h2]

theorem prevDay_gt (y m d : Int) (h : 1 < d) :
    prevDay ⟨y, m, d⟩ = ⟨y, m, d - 1⟩ := by
  simp [prevDay, h]

theorem prevDay_mid (y m d : Int) (h1 : ¬ 1 < d) (h2 : 1 < m) :
    prevDay ⟨y, m, d⟩ = ⟨y, m - 1, monthLastDay y (m - 1)⟩ := by
  simp [prevDay, h1, h2]

theorem prevDay_bot (y m d : Int) (h1 : ¬ 1 < d) (h2 : ¬ 1 < m) :
    prevDay ⟨y, m, d⟩ = ⟨y - 1, 12, 31⟩ := by
  simp [prevDay, h1, h2]

theorem dayIncLoop_base (y m d : Int) (hd : d ≤ monthLastDay y m) :
    dayIncLoop y m d = ⟨y, m, d⟩ := by
  rw [dayIncLoop, if_neg (by omega)]

theorem dayDecLoop_base (y m d : Int) (hd : 1 ≤ d) :
    dayDecLoop y m d = ⟨y, m, d⟩ := by
  rw [dayDecLoop, if_neg (by omega)]

theorem dayIncLoop_step (y m d : Int) (h : monthLastDay y m < d) :
    dayIncLoop y m d =
      if m + 1 == 13 then dayIncLoop (y + 1) 1 (d - monthLastDay y m)
      else dayIncLoop y (m + 1) (d - monthLastDay y m) := by
  rw [dayIncLoop, if_pos h]

theorem dayDecLoop_step (y m d : Int) (h : d < 1) :
    dayDecLoop y m d =
      if m - 1 == 0 then dayDecLoop (y - 1) 12 (d + monthLastDay (y - 1) 12)
      else dayDecLoop y (m - 1) (d + monthLastDay y (m - 1)) := by
  rw [dayDecLoop, if_pos h]

theorem dayIncLoop_succ_pos (y m d : Int) (hm1 : 1 ≤ m) (hm2 : m ≤ 12)
    (hd1 : 1 ≤ d) (hd2 : d ≤ monthLastDay y m) :
    dayIncLoop y m (d + 1) = nextDay (dayIncLoop y m d) := by
  rw [dayIncLoop_base y m d hd2]
  rcases lt_or_eq_of_le hd2 with hc | hc
  · rw [dayIncLoop_base y m (d + 1) (by omega), nextDay_lt y m d hc]
  · rw [dayIncLoop_step y m (d + 1) (by omega)]
    by_cases h12 : m = 12
    · subst h12
      rw [if_pos (by decide)]
      have he : d + 1 - monthLastDay y 12 = 1 := by omega
      rw [he, dayIncLoop_base (y + 1) 1 1 (by have := monthLastDay_ge (y + 1) 1; omega),
        nextDay_end y 12 d (by omega) (by omega)]
    · rw [if_neg (by simp only [beq_iff_eq]; omega)]
      have he : d + 1 - monthLastDay y m = 1 := by omega
      rw [he, dayIncLoop_base y (m + 1) 1 (by have := monthLastDay_ge y (m + 1); omega),
        nextDay_mid y m d (by omega) (by omega)]

theorem dayIncLoop_succ_aux : ∀ (k : Nat) (y m d : Int), d.toNat ≤ k →
    1 ≤ m → m ≤ 12 → 1 ≤ d →
    dayIncLoop y m (d + 1) = nextDay (dayIncLoop y m d) := by
  intro k
  induction k with
  | zero => intro y m d hk _ _ hd; omega
  | succ k ih =>
    intro y m d hk hm1 hm2 hd
    have hL := monthLastDay_ge y m
    by_cases hc : d ≤ monthLastDay y m
    · exact dayIncLoop_succ_pos y m d hm1 hm2 hd hc
    · rw [dayIncLoop_step y m (d + 1) (by omega), dayIncLoop_step y m d (by omega)]
      by_cases h12 : m = 12
      · subst h12
        have hpe : (((12 : Int) + 1 == 13) = true) := by decide
        rw [if_pos hpe, if_pos hpe]
        have he : d + 1 - monthLastDay y 12 = (d - monthLastDay y 12) + 1 := by omega
        rw [he, ih (y + 1) 1 (d - monthLastDay y 12) (by omega) (by omega) (by omega)
          (by omega)]
      · have hne : ¬ ((m + 1 == 13) = true) := by simp only [beq_iff_eq]; omega
        rw [if_neg hne, if_neg hne]
        have he : d + 1 - monthLastDay y m = (d - monthLastDay y m) + 1 := by omega
        rw [he, ih y (m + 1) (d - monthLastDay y m) (by omega) (by omega) (by omega)
          (by omega)]

theorem dayIncLoop_succ (y m d : Int) (hm1 : 1 ≤ m) (hm2 : m ≤ 12) (hd : 1 ≤ d) :
    dayIncLoop y m (d + 1) = nextDay (dayIncLoop y m d) :=
  dayIncLoop_succ_aux d.toNat y m d le_rfl hm1 hm2 hd

theorem dayDecLoop_pred_pos (y m d : Int) (hm1 : 1 ≤ m) (hm2 : m ≤ 12)
    (hd1 : 1 ≤ d) (hd2 : d ≤ monthLastDay y m) :
    dayDecLoop y m (d - 1) = prevDay (dayDecLoop y m d) := by
  rw [dayDecLoop_base y m d hd1]
  rcases lt_or_eq_of_le hd1 with hc | hc
  · rw [dayDecLoop_base y m (d - 1) (by omega), prevDay_gt y m d hc]
  · rw [dayDecLoop_step y m (d - 1) (by omega)]
    by_cases h1 : m = 1
    · subst h1
      rw [if_pos (by decide)]
      rw [dayDecLoop_base (y - 1) 12 (d - 1 + monthLastDay (y - 1) 12)
          (by have := monthLastDay_ge (y - 1) 12; omega),
        prevDay_bot y 1 d (by omega) (by omega)]
      rw [monthLastDay_twelve (y - 1)]
      congr 1
      omega
    · rw [if_neg (by simp only [beq_iff_eq]; omega)]
      rw [dayDecLoop_base y (m - 1) (d - 1 + monthLastDay y (m - 1))
          (by have := monthLastDay_ge y (m - 1); omega),
        prevDay_mid y m d (by omega) (by omega)]
      congr 1
      omega

theorem dayDecLoop_pred_aux : ∀ (k : Nat) (y m d : Int), (1 - d).toNat ≤ k →
    1 ≤ m → m ≤ 12 → d ≤ monthLastDay y m →
    dayDecLoop y m (d - 1) = prevDay (dayDecLoop y m d) := by
  intro k
  induction k with
  | zero =>
    intro y m d hk hm1 hm2 hd
    exact dayDecLoop_pred_pos y m d hm1 hm2 (by omega) hd
  | succ k ih =>
    intro y m d hk hm1 hm2 hd
    by_cases hc : 1 ≤ d
    · exact dayDecLoop_pred_pos y m d hm1 hm2 hc hd
    · rw [dayDecLoop_step y m (d - 1) (by omega), dayDecLoop_step y m d (by omega)]
      by_cases h1 : m = 1
      · subst h1
        have hpe : (((1 : Int) - 1 == 0) = true) := by decide
        rw [if_pos hpe, if_pos hpe]
        have h28 := monthLastDay_ge (y - 1) 12
        have he : d - 1 + monthLastDay (y - 1) 12 = (d + monthLastDay (y - 1) 12) - 1 := by
          omega
        rw [he, ih (y - 1) 12 (d + monthLastDay (y - 1) 12) (by omega) (by omega) (by omega)
          (by omega)]
      · have hne : ¬ ((m - 1 == 0) = true) := by simp only [beq_iff_eq]; omega
        rw [if_neg hne, if_neg hne]
        have h28 := monthLastDay_ge y (m - 1)
        have he : d - 1 + monthLastDay y (m - 1) = (d + monthLastDay y (m - 1)) - 1 := by
          omega
        rw [he, ih y (m - 1) (d + monthLastDay y (m - 1)) (by omega) (by omega) (by omega)
          (by omega)]

theorem dayDecLoop_pred (y m d : Int) (hm1 : 1 ≤ m) (hm2 : m ≤ 12)
    (hd : d ≤ monthLastDay y m) :
    dayDecLoop y m (d - 1) = prevDay (dayDecLoop y m d) :=
  dayDecLoop_pred_aux (1 - d).toNat y m d le_rfl hm1 hm2 hd

theorem dayIncLoop_iterate (k : Nat) (y m d : Int) (hm1 : 1 ≤ m) (hm2 : m ≤ 12)
    (hd1 : 1 ≤ d) (hd2 : d ≤ monthLastDay y m) :
    dayIncLoop y m (d + k) = nextDay^[k] ⟨y, m, d⟩ := by
  induction k with
  | zero => simpa using dayIncLoop_base y m d hd2
  | succ k ih =>
    have he : (d + ((k + 1 : Nat) : Int)) = (d + k) + 1 := by push_cast; ring
    rw [he, dayIncLoop_succ y m (d + k) hm1 hm2 (by omega), ih,
      Function.iterate_succ_apply']

theorem dayDecLoop_iterate (k : Nat) (y m d : Int) (hm1 : 1 ≤ m) (hm2 : m ≤ 12)
    (hd1 : 1 ≤ d) (hd2 : d ≤ monthLastDay y m) :
    dayDecLoop y m (d - k) = prevDay^[k] ⟨y, m, d⟩ := by
  induction k with
  | zero => simpa using dayDecLoop_base y m d hd1
  | succ k ih =>
    have he : (d - ((k + 1 : Nat) : Int)) = (d - k) - 1 := by push_cast; ring
    rw [he, dayDecLoop_pred y m (d - k) hm1 hm2 (by omega), ih,
      Function.iterate_succ_apply']

theorem clamp_eq_min (d L : Int) : (if L < d then L else d) = min d L := by
  rcases le_or_lt d L with h | h
  · rw [if_neg (by omega), min_eq_left h]
  · rw [if_pos h, min_eq_right (by omega)]

theorem offset_month_num (i : Instant) (n : Int) :
    i.offset (.num n) .month =
      some ⟨(if n < 0 then monthDecLoop i.year (i.month + n)
             else if 0 < n then monthIncLoop i.year (i.month + n)
             else (i.year, i.month + n)).1,
            (if n < 0 then monthDecLoop i.year (i.month + n)
             else if 0 < n then monthIncLoop i.year (i.month + n)
             else (i.year, i.month + n)).2,
            if monthLastDay
                (if n < 0 then monthDecLoop i.year (i.month + n)
                 else if 0 < n then monthIncLoop i.year (i.month + n)
                 else (i.year, i.month + n)).1
                (if n < 0 then monthDecLoop i.year (i.month + n)
                 else if 0 < n then monthIncLoop i.year (i.month + n)
                 else (i.year, i.month + n)).2 < i.day then
              monthLastDay
                (if n < 0 then monthDecLoop i.year (i.month + n)
                 else if 0 < n then monthIncLoop i.year (i.month + n)
                 else (i.year, i.month + n)).1
                (if n < 0 then monthDecLoop i.year (i.month + n)
                 else if 0 < n then monthIncLoop i.year (i.month + n)
                 else (i.year, i.month + n)).2
            else i.day⟩ := rfl

theorem offset_year_num (i : Instant) (n : Int) :
    i.offset (.num n) .year =
      some ⟨i.year + n, i.month,
        if monthLastDay (i.year + n) i.month < i.day then monthLastDay (i.year + n) i.month
        else i.day⟩ := rfl

theorem offset_day_num (i : Instant) (n : Int) :
    i.offset (.num n) .day =
      if n < 0 then some (dayDecLoop i.year i.month (i.day + n))
      else if 0 < n then some (dayIncLoop i.year i.month (i.day + n))
      else some ⟨i.year, i.month, i.day + n⟩ := rfl

theorem mem_dropWhile_of_mem (p : Char → Bool) (l : List Char) (c : Char)
    (hc : c ∈ l) (hp : p c = false) : c ∈ l.dropWhile p := by
  induction l with
  | nil => cases hc
  | cons x r ih =>
    by_cases hx : p x = true
    · rw [List.dropWhile_cons_of_pos hx]
      rcases List.mem_cons.mp hc with rfl | hcr
      · rw [hp] at hx; cases hx
      · exact ih hcr
    · rw [List.dropWhile_cons_of_neg (by simpa using hx)]
      exact hc

theorem mem_stripPySpaces (l : List Char) (c : Char) (hc : c ∈ l)
    (hp : isPySpace c = false) : c ∈ stripPySpaces l := by
  unfold stripPySpaces
  exact List.mem_reverse.mpr (mem_dropWhile_of_mem _ _ _
    (List.mem_reverse.mpr (mem_dropWhile_of_mem _ _ _ hc hp)) hp)

theorem pyIntTail_chars : ∀ (l : List Char), pyIntTail l = true →
    ∀ c ∈ l, isDigitChar c = true ∨ c = '_' := by
  intro l
  induction l using pyIntTail.induct with
  | case1 => intro _ c hc; cases hc
  | case2 a ha =>
    intro h
    rw [pyIntTail.eq_2, if_pos ha] at h
    exact Bool.noConfusion h
  | case3 a ha c2 r2 ih =>
    intro h c hc
    rw [pyIntTail.eq_3, if_pos ha] at h
    simp only [Bool.and_eq_true] at h
    rcases List.mem_cons.mp hc with rfl | hcr
    · exact Or.inr (by simpa using ha)
    · rcases List.mem_cons.mp hcr with rfl | hcr'
      · exact Or.inl h.1
      · exact ih h.2 c hcr'
  | case4 a r ha ih =>
    intro h c hc
    cases r with
    | nil =>
      rw [pyIntTail.eq_2, if_neg ha] at h
      simp only [Bool.and_eq_true] at h
      rcases List.mem_cons.mp hc with rfl | hcr
      · exact Or.inl h.1
      · cases hcr
    | cons b r2 =>
      rw [pyIntTail.eq_3, if_neg ha] at h
      simp only [Bool.and_eq_true] at h
      rcases List.mem_cons.mp hc with rfl | hcr
      · exact Or.inl h.1
      · exact ih h.2 c hcr

theorem pyIntBody_chars (l : List Char) (h : pyIntBody l = true) :
    ∀ c ∈ l, isDigitChar c = true ∨ c = '_' := by
  cases l with
  | nil => exact absurd h (by decide)
  | cons a r =>
    intro c hc
    have h' : isDigitChar a = true ∧ pyIntTail r = true := by
      simpa [pyIntBody, Bool.and_eq_true] using h
    rcases List.mem_cons.mp hc with rfl | hcr
    · exact Or.inl h'.1
    · exact pyIntTail_chars r h'.2 c hcr

theorem string_mk_data (s : String) : String.mk s.data = s := rfl

theorem period_ofStr (s : String) :
    period (.ofStr s) =
      if (s == "ETERNITY" || pyLower s == "eternity") = true then some eternityPeriod
      else
        match parse_simple_period s with
        | some (u, st) => some ⟨.ofU u, st, .int 1⟩
        | none =>
          if ':' ∈ s.data then
            match splitSep ':' s.data with
            | us :: ds :: rest =>
              if String.mk us ∈ Unit.ethereal then
                match parse_simple_period (String.mk ds) with
                | none => none
                | some (bu, st) =>
                  match rest with
                  | [] => mkCompound (String.mk us) bu st 1
                  | [ss] =>
                    match pyInt (String.mk ss) with
                    | some k => mkCompound (String.mk us) bu st k
                    | none => none
                  | _ => none
              else none
            | _ => none
          else none := rfl

theorem pyInt_no_colon (s : String) (k : Int) (h : pyInt s = some k) :
    ':' ∉ s.data := by
  intro hc
  have hmem : ':' ∈ stripPySpaces s.data := mem_stripPySpaces s.data ':' hc (by decide)
  have hb : pyIntBody
      (if (stripPySpaces s.data).head? = some '+' ∨ (stripPySpaces s.data).head? = some '-'
       then (stripPySpaces s.data).tail else stripPySpaces s.data) = true := by
    by_contra hnb
    simp only [pyInt] at h
    rw [if_neg hnb] at h
    cases h
  by_cases hsign : (stripPySpaces s.data).head? = some '+'
      ∨ (stripPySpaces s.data).head? = some '-'
  · rw [if_pos hsign] at hb
    cases hLc : stripPySpaces s.data with
    | nil => rw [hLc] at hmem; cases hmem
    | cons a r =>
      rw [hLc] at hmem hb hsign
      have ha : a = '+' ∨ a = '-' := by simpa using hsign
      rcases List.mem_cons.mp hmem with heq | hr
      · rcases ha with rfl | rfl <;> exact absurd heq (by decide)
      · rcases pyIntBody_chars r (by simpa using hb) ':' hr with h1 | h1 <;>
          exact absurd h1 (by decide)
  · rw [if_neg hsign] at hb
    rcases pyIntBody_chars _ hb ':' hmem with h1 | h1 <;> exact absurd h1 (by decide)

theorem allDigits_no_dash (l : List Char) (h : allDigits l = true) : '-' ∉ l := by
  intro hm
  exact absurd (List.all_eq_true.mp h '-' hm) (by decide)

theorem eternity_guard_colon (s : String) (h : ':' ∈ s.data) :
    (s == "ETERNITY") = false ∧ (pyLower s == "eternity") = false := by
  constructor
  · simp only [beq_eq_false_iff_ne, ne_eq]
    intro he; subst he
    revert h; decide
  · simp only [beq_eq_false_iff_ne, ne_eq]
    intro he
    have hm : lowerChar ':' ∈ (pyLower s).data := List.mem_map_of_mem lowerChar h
    rw [he] at hm
    revert hm; decide

theorem eternity_guard_simple (s : String)
    (h : ∀ c ∈ s.data, isDigitChar c = true ∨ c = '-') :
    (s == "ETERNITY") = false ∧ (pyLower s == "eternity") = false := by
  constructor
  · simp only [beq_eq_false_iff_ne, ne_eq]
    intro he; subst he
    have := h 'E' (by decide)
    revert this; decide
  · simp only [beq_eq_false_iff_ne, ne_eq]
    intro he
    have h1 : 'e' ∈ (pyLower s).data := by rw [he]; decide
    rcases List.mem_map.mp h1 with ⟨c, hc, hlc⟩
    rcases h c hc with hd | rfl
    · rw [lowerChar_of_digit c hd] at hlc
      subst hlc
      exact absurd hd (by decide)
    · exact absurd hlc (by decide)

theorem period_of_simple (s : String) (u : Unit) (st : Instant)
    (h : parse_simple_period s = some (u, st)) :
    period (.ofStr s) = some ⟨.ofU u, st, .int 1⟩ := by
  have hg := eternity_guard_simple s (parse_simple_chars s (u, st) h)
  rw [period_ofStr, hg.1, hg.2]
  simp [h]

theorem mkCompound_fields (us : String) (bu : Unit) (st : Instant) (k : Int)
    (p : Period) (h : mkCompound us bu st k = some p) :
    p.unit = .ofS us ∧ p.start = st ∧ p.size = .int k := by
  unfold mkCompound at h
  split at h
  · split at h
    · cases h
    · injection h with h'
      subst h'
      exact ⟨rfl, rfl, rfl⟩
  · cases h

theorem period_compound2 (us ds : String) (bu : Unit) (st : Instant)
    (hu : us ∈ Unit.ethereal) (hcu : ':' ∉ us.data)
    (hd : parse_simple_period ds = some (bu, st)) :
    period (.ofStr (us ++ ":" ++ ds)) = mkCompound us bu st 1 := by
  have hdata : (us ++ ":" ++ ds).data = us.data ++ ':' :: ds.data := by
    show (us.data ++ [':']) ++ ds.data = us.data ++ ':' :: ds.data
    simp [List.append_assoc]
  have hcd := parse_simple_no_colon ds (bu, st) hd
  have hcol : ':' ∈ (us ++ ":" ++ ds).data := by
    rw [hdata]
    exact List.mem_append_right _ (List.mem_cons_self _ _)
  have hg := eternity_guard_colon _ hcol
  have hps : parse_simple_period (us ++ ":" ++ ds) = none := by
    cases hq : parse_simple_period (us ++ ":" ++ ds) with
    | none => rfl
    | some x => exact absurd hcol (parse_simple_no_colon _ x hq)
  have hsplit : splitSep ':' (us ++ ":" ++ ds).data = [us.data, ds.data] := by
    rw [hdata, splitSep_append ':' us.data _ hcu, splitSep_of_not_mem ':' ds.data hcd]
  rw [period_ofStr, hg.1, hg.2]
  simp only [Bool.or_self, Bool.false_eq_true, if_false]
  rw [hps]
  rw [if_pos hcol, hsplit]
  simp [string_mk_data, hu, hd]

theorem period_compound3 (us ds ss : String) (bu : Unit) (st : Instant) (k : Int)
    (hu : us ∈ Unit.ethereal) (hcu : ':' ∉ us.data)
    (hd : parse_simple_period ds = some (bu, st)) (hs : pyInt ss = some k) :
    period (.ofStr (us ++ ":" ++ ds ++ ":" ++ ss)) = mkCompound us bu st k := by
  have hdata : (us ++ ":" ++ ds ++ ":" ++ ss).data =
      us.data ++ ':' :: (ds.data ++ ':' :: ss.data) := by
    show (((us.data ++ [':']) ++ ds.data) ++ [':']) ++ ss.data =
      us.data ++ ':' :: (ds.data ++ ':' :: ss.data)
    simp [List.append_assoc]
  have hcd := parse_simple_no_colon ds (bu, st) hd
  have hcs := pyInt_no_colon ss k hs
  have hcol : ':' ∈ (us ++ ":" ++ ds ++ ":" ++ ss).data := by
    rw [hdata]
    exact List.mem_append_right _ (List.mem_cons_self _ _)
  have hg := eternity_guard_colon _ hcol
  have hps : parse_simple_period (us ++ ":" ++ ds ++ ":" ++ ss) = none := by
    cases hq : parse_simple_period (us ++ ":" ++ ds ++ ":" ++ ss) with
    | none => rfl
    | some x => exact absurd hcol (parse_simple_no_colon _ x hq)
  have hsplit : splitSep ':' (us ++ ":" ++ ds ++ ":" ++ ss).data =
      [us.data, ds.data, ss.data] := by
    rw [hdata, splitSep_append ':' us.data _ hcu, splitSep_append ':' ds.data _ hcd,
      splitSep_of_not_mem ':' ss.data hcs]
  rw [period_ofStr, hg.1, hg.2]
  simp only [Bool.or_self, Bool.false_eq_true, if_false]
  rw [hps]
  rw [if_pos hcol, hsplit]
  simp [string_mk_data, hu, hd, hs]

theorem parse_simple_valid (s : String) (u : Unit) (st : Instant)
    (h : parse_simple_period s = some (u, st)) : st.Valid := by
  unfold parse_simple_period at h
  cases hsp : splitSep '-' s.data with
  | nil => rw [hsp] at h; simp at h
  | cons l1 t1 =>
    cases t1 with
    | nil =>
      rw [hsp] at h
      cases hy : matchYearPat l1 with
      | none => simp [hy] at h
      | some y =>
        have hspec := matchYearPat_spec l1 y hy
        simp only [hy, Option.map_some', Option.some.injEq, Prod.mk.injEq] at h
        obtain ⟨hu, hst⟩ := h
        subst hst
        show (1 : Int) ≤ 1 ∧ (1 : Int) ≤ 12 ∧ (1 : Int) ≤ 1 ∧ (1 : Int) ≤ monthLastDay y 1
        have h31 := monthLastDay_ge y 1
        refine ⟨by omega, by omega, by omega, by omega⟩
    | cons l2 t2 =>
      cases t2 with
      | nil =>
        rw [hsp] at h
        cases hy : matchYearPat l1 with
        | none => simp [hy] at h
        | some y =>
          cases hm : matchMonthPat l2 with
          | none => simp [hy, hm] at h
          | some m =>
            have hys := matchYearPat_spec l1 y hy
            have hms := matchMonthPat_spec l2 m hm
            simp only [hy, hm, Option.some.injEq, Prod.mk.injEq] at h
            obtain ⟨hu, hst⟩ := h
            subst hst
            show (1 : Int) ≤ m ∧ m ≤ 12 ∧ (1 : Int) ≤ 1 ∧ (1 : Int) ≤ monthLastDay y m
            have h28 := monthLastDay_ge y m
            refine ⟨by omega, by omega, by omega, by omega⟩
      | cons l3 t3 =>
        cases t3 with
        | nil =>
          rw [hsp] at h
          cases hy : matchYearPat l1 with
          | none => simp [hy] at h
          | some y =>
            cases hm : matchMonthPat l2 with
            | none => simp [hy, hm] at h
            | some m =>
              cases hdd : matchDayPat l3 with
              | none => simp [hy, hm, hdd] at h
              | some d =>
                have hys := matchYearPat_spec l1 y hy
                have hms := matchMonthPat_spec l2 m hm
                have hds := matchDayPat_spec l3 d hdd
                simp only [hy, hm, hdd] at h
                split at h
                · rename_i hle
                  simp only [Option.some.injEq, Prod.mk.injEq] at h
                  obtain ⟨hu, hst⟩ := h
                  subst hst
                  show (1 : Int) ≤ m ∧ m ≤ 12 ∧ (1 : Int) ≤ d ∧ d ≤ monthLastDay y m
                  refine ⟨by omega, by omega, by omega, by omega⟩
                · cases h
        | cons l4 t4 => rw [hsp] at h; simp at h

/-! Claim theorems. -/

/-- C3: for every valid instant (y, m, d) and integer n, the month offset
adds n months, rolling over year boundaries (the result is the
euclidean-normalised month with the year incremented by the carry), then
clamps the day down to the resulting month's last day when d exceeds it
(so (2021,1,31) + 1 month = (2021,2,28)); the year offset adds n to the
year only and clamps the day the same way, leap-aware (so
(2012,2,29) + 1 year = (2013,2,28)). -/
theorem C3_offset_month_year (i : Instant) (n : Int) (h : i.Valid) :
    (i.offset (.num n) .month =
      some ⟨i.year + (i.month + n - 1) / 12, (i.month + n - 1) % 12 + 1,
        min i.day (monthLastDay (i.year + (i.month + n - 1) / 12)
          ((i.month + n - 1) % 12 + 1))⟩) ∧
    (i.offset (.num n) .year =
      some ⟨i.year + n, i.month, min i.day (monthLastDay (i.year + n) i.month)⟩) ∧
    Instant.offset ⟨2021, 1, 31⟩ (.num 1) .month = some ⟨2021, 2, 28⟩ ∧
    Instant.offset ⟨2012, 2, 29⟩ (.num 1) .year = some ⟨2013, 2, 28⟩ := by
  have mainM : ∀ (j : Instant) (k : Int), j.Valid →
      j.offset (.num k) .month =
        some ⟨j.year + (j.month + k - 1) / 12, (j.month + k - 1) % 12 + 1,
          min j.day (monthLastDay (j.year + (j.month + k - 1) / 12)
            ((j.month + k - 1) % 12 + 1))⟩ := by
    intro j k hj
    obtain ⟨hm1, hm2, hd1, hd2⟩ := hj
    rw [offset_month_num]
    rcases lt_trichotomy k 0 with hn | hn | hn
    · rw [if_pos hn, monthDecLoop_eq j.year (j.month + k) (by omega), clamp_eq_min]
    · subst hn
      rw [if_neg (by omega), if_neg (by omega)]
      have e1 : j.year + (j.month + 0 - 1) / 12 = j.year := by omega
      have e2 : (j.month + 0 - 1) % 12 + 1 = j.month + 0 := by omega
      rw [e1, e2, clamp_eq_min]
    · rw [if_neg (by omega), if_pos hn,
        monthIncLoop_eq j.year (j.month + k) (by omega), clamp_eq_min]
  have mainY : ∀ (j : Instant) (k : Int),
      j.offset (.num k) .year =
        some ⟨j.year + k, j.month, min j.day (monthLastDay (j.year + k) j.month)⟩ := by
    intro j k
    rw [offset_year_num, clamp_eq_min]
  refine ⟨mainM i n h, mainY i n, ?_, ?_⟩
  · rw [mainM ⟨2021, 1, 31⟩ 1 (by decide)]
    decide
  · rw [mainY ⟨2012, 2, 29⟩ 1]
    decide

theorem C3_witness : (⟨2021, 1, 31⟩ : Instant).Valid ∧
    Instant.offset ⟨2021, 1, 31⟩ (.num 1) .month = some ⟨2021, 2, 28⟩ :=
  ⟨by decide, (C3_offset_month_year ⟨2021, 1, 31⟩ 1 (by decide)).2.2.1⟩

/-- C4: for every valid instant and integer n, the day offset returns the
date shifted by exactly n calendar days under standard Gregorian rules:
the n-fold successor for n ≥ 0, the (-n)-fold predecessor for n < 0, with
month lengths (including leap February) respected at every step. -/
theorem C4_offset_day (i : Instant) (n : Int) (h : i.Valid) :
    i.offset (.num n) .day = some (shiftDays i n) ∧
    Instant.offset ⟨2021, 1, 31⟩ (.num 1) .day = some ⟨2021, 2, 1⟩ ∧
    Instant.offset ⟨2021, 1, 1⟩ (.num (-1)) .day = some ⟨2020, 12, 31⟩ := by
  have main : ∀ (j : Instant) (k : Int), j.Valid →
      j.offset (.num k) .day = some (shiftDays j k) := by
    intro j k hj
    obtain ⟨hm1, hm2, hd1, hd2⟩ := hj
    rw [offset_day_num, shiftDays]
    rcases lt_trichotomy k 0 with hn | hn | hn
    · rw [if_pos hn, if_neg (by omega)]
      have he : j.day + k = j.day - ((-k).toNat : Int) := by omega
      rw [he, dayDecLoop_iterate (-k).toNat j.year j.month j.day hm1 hm2 hd1 hd2]
    · subst hn
      rw [if_neg (by omega), if_neg (by omega), if_pos (by omega)]
      simp
    · rw [if_neg (by omega), if_pos hn, if_pos (by omega)]
      have he : j.day + k = j.day + (k.toNat : Int) := by omega
      rw [he, dayIncLoop_iterate k.toNat j.year j.month j.day hm1 hm2 hd1 hd2]
  refine ⟨main i n h, ?_, ?_⟩
  · rw [main ⟨2021, 1, 31⟩ 1 (by decide)]
    decide
  · rw [main ⟨2021, 1, 1⟩ (-1) (by decide)]
    decide

theorem C4_witness : (⟨2021, 1, 31⟩ : Instant).Valid ∧
    Instant.offset ⟨2021, 1, 31⟩ (.num 1) .day = some ⟨2021, 2, 1⟩ :=
  ⟨by decide, (C4_offset_day ⟨2021, 1, 31⟩ 1 (by decide)).2.1⟩

/-- C5: for every valid instant (y, m, d), the "first-of" anchor gives
(y, m, 1) for unit month and (y, 1, 1) for unit year; the "last-of"
anchor gives (y, m, last day of (y, m)) for unit month and (y, 12, 31)
for unit year; with unit day both anchors return the instant unchanged. -/
theorem C5_offset_anchors (i : Instant) (h : i.Valid) :
    i.offset .firstOf .month = some ⟨i.year, i.month, 1⟩ ∧
    i.offset .firstOf .year = some ⟨i.year, 1, 1⟩ ∧
    i.offset .lastOf .month = some ⟨i.year, i.month, monthLastDay i.year i.month⟩ ∧
    i.offset .lastOf .year = some ⟨i.year, 12, 31⟩ ∧
    i.offset .firstOf .day = some i ∧
    i.offset .lastOf .day = some i :=
  ⟨rfl, rfl, rfl, rfl, rfl, rfl⟩

theorem C5_witness : (⟨2012, 2, 3⟩ : Instant).Valid ∧
    Instant.offset ⟨2012, 2, 3⟩ .lastOf .month = some ⟨2012, 2, 29⟩ := by
  refine ⟨by decide, ?_⟩
  rw [(C5_offset_anchors ⟨2012, 2, 3⟩ (by decide)).2.2.1]
  decide

/-- C8: parse_period applied to the literal string "ETERNITY" or to the
Eternity unit returns the eternity period: the string unit 'eternity',
start fixed at datetime.date.min = 0001-01-01, and infinite size. -/
theorem C8_eternity :
    period (.ofStr "ETERNITY") = some ⟨.ofS "eternity", dateMin, .inf⟩ ∧
    period (.ofUnit .eternity) = some ⟨.ofS "eternity", dateMin, .inf⟩ ∧
    dateMin = ⟨1, 1, 1⟩ :=
  ⟨rfl, rfl, rfl⟩

theorem ethereal_no_colon (us : String) (hu : us ∈ Unit.ethereal) : ':' ∉ us.data := by
  rcases (by simpa [Unit.ethereal] using hu : us = "day" ∨ us = "month" ∨ us = "year")
    with rfl | rfl | rfl <;> decide

/-- C1 counterexample: parse_period accepts the compound string
"year:2014:0" whose size component is 0: it does not fail with
InvalidPeriodError, and returns a Period of size 0, contradicting both
the rejection of non-positive sizes and the size ≥ 1 invariant. -/
theorem C1_cex :
    period (.ofStr "year:2014:0") = some ⟨.ofS "year", ⟨2014, 1, 1⟩, .int 0⟩ ∧
    period (.ofStr "year:2014:0") ≠ none :=
  ⟨by decide, by decide⟩

/-- C1 amended: the `<size>` component of a compound period string is only
required to parse as an integer via int(); any resulting integer,
including zero and negative values, is accepted, and parse_period returns
a Period carrying exactly that size (so the size ≥ 1 invariant does not
hold for parsed periods). -/
theorem C1_amended (ss : String) (k : Int) (hs : pyInt ss = some k) :
    period (.ofStr ("year:2014:" ++ ss)) =
      some ⟨.ofS "year", ⟨2014, 1, 1⟩, .int k⟩ := by
  have h : period (.ofStr ("year:2014:" ++ ss)) = mkCompound "year" .year ⟨2014, 1, 1⟩ k :=
    period_compound3 "year" "2014" ss .year ⟨2014, 1, 1⟩ k (by decide) (by decide)
      (by decide) hs
  rw [h]
  unfold mkCompound
  rw [show memberByCapitalized "year" = some Unit.year from by decide]
  show (if Unit.year.weight < Unit.year.weight then (none : Option Period)
        else some ⟨.ofS "year", ⟨2014, 1, 1⟩, .int k⟩) =
      some ⟨.ofS "year", ⟨2014, 1, 1⟩, .int k⟩
  rw [if_neg (by decide)]

theorem C1_witness : pyInt "0" = some 0 ∧
    period (.ofStr ("year:2014:" ++ "0")) = some ⟨.ofS "year", ⟨2014, 1, 1⟩, .int 0⟩ :=
  ⟨by decide, C1_amended "0" 0 (by decide)⟩

/-- C2: a compound string "<unit>:<simple-date>" or
"<unit>:<simple-date>:<size>" with a recognised ethereal unit key, a
parsing date and a parsing size fails exactly when the granularity unit
implied by the date has strictly greater weight than the named unit, and
otherwise yields the Period with the named unit (stored as its string
key, value-equal to the Unit member), the parsed date's start instant and
the given size; so "month:2014" is rejected and "year:2014-2:3" yields
unit year, start (2014,2,1), size 3. -/
theorem C2_compound (us ds ss : String) (bu uu : Unit) (st : Instant) (k : Int)
    (hu : us ∈ Unit.ethereal) (hm : memberByCapitalized us = some uu)
    (hd : parse_simple_period ds = some (bu, st)) (hs : pyInt ss = some k) :
    (period (.ofStr (us ++ ":" ++ ds)) =
      if uu.weight < bu.weight then none else some ⟨.ofS us, st, .int 1⟩) ∧
    (period (.ofStr (us ++ ":" ++ ds ++ ":" ++ ss)) =
      if uu.weight < bu.weight then none else some ⟨.ofS us, st, .int k⟩) ∧
    UnitField.pyEq (.ofS us) uu = true ∧
    period (.ofStr "month:2014") = none ∧
    period (.ofStr "year:2014-2:3") = some ⟨.ofS "year", ⟨2014, 2, 1⟩, .int 3⟩ := by
  have hcu := ethereal_no_colon us hu
  have hmk : ∀ n : Int, mkCompound us bu st n =
      if uu.weight < bu.weight then none else some ⟨.ofS us, st, .int n⟩ := by
    intro n
    unfold mkCompound
    rw [hm]
  refine ⟨?_, ?_, ?_, by decide, by decide⟩
  · rw [period_compound2 us ds bu st hu hcu hd, hmk]
  · rw [period_compound3 us ds ss bu st k hu hcu hd hs, hmk]
  · rcases (by simpa [Unit.ethereal] using hu : us = "day" ∨ us = "month" ∨ us = "year")
      with rfl | rfl | rfl
    · rw [show memberByCapitalized "day" = some Unit.day from by decide] at hm
      injection hm with h2
      subst h2
      decide
    · rw [show memberByCapitalized "month" = some Unit.month from by decide] at hm
      injection hm with h2
      subst h2
      decide
    · rw [show memberByCapitalized "year" = some Unit.year from by decide] at hm
      injection hm with h2
      subst h2
      decide

theorem C2_witness :
    ("year" ∈ Unit.ethereal) ∧
    period (.ofStr ("year" ++ ":" ++ "2014-2" ++ ":" ++ "3")) =
      some ⟨.ofS "year", ⟨2014, 2, 1⟩, .int 3⟩ := by
  refine ⟨by decide, ?_⟩
  rw [(C2_compound "year" "2014-2" "3" .month .year ⟨2014, 2, 1⟩ 3
    (by decide) (by decide) (by decide) (by decide)).2.1]
  decide

/-- C6: a string of the form "YYYY" (four digits, year ≥ 1), "YYYY-MM",
or "YYYY-MM-DD" naming a valid calendar date parses to a Period of unit
Year, Month or Day respectively, with size 1 and the parsed start
instant (month and day defaulting to 1 where absent); an integer input
parses to Period(Year, Instant(n,1,1), 1). -/
theorem C6_simple (s : String) :
    (∀ y, matchYearPat s.data = some y →
      period (.ofStr s) = some ⟨.ofU .year, ⟨y, 1, 1⟩, .int 1⟩) ∧
    (∀ ys ms y m, s.data = ys ++ '-' :: ms → matchYearPat ys = some y →
      matchMonthPat ms = some m →
      period (.ofStr s) = some ⟨.ofU .month, ⟨y, m, 1⟩, .int 1⟩) ∧
    (∀ ys ms ds y m d, s.data = ys ++ '-' :: (ms ++ '-' :: ds) →
      matchYearPat ys = some y → matchMonthPat ms = some m → matchDayPat ds = some d →
      d ≤ monthLastDay y m →
      period (.ofStr s) = some ⟨.ofU .day, ⟨y, m, d⟩, .int 1⟩) ∧
    (∀ n : Int, period (.ofInt n) = some ⟨.ofU .year, ⟨n, 1, 1⟩, .int 1⟩) := by
  refine ⟨?_, ?_, ?_, fun n => rfl⟩
  · intro y hy
    have hnd : '-' ∉ s.data := allDigits_no_dash _ (matchYearPat_spec _ y hy).2.1
    have hps : parse_simple_period s = some (.year, ⟨y, 1, 1⟩) := by
      unfold parse_simple_period
      rw [splitSep_of_not_mem '-' s.data hnd]
      simp [hy]
    exact period_of_simple s .year ⟨y, 1, 1⟩ hps
  · intro ys ms y m hsdata hy hm
    have hynd : '-' ∉ ys := allDigits_no_dash _ (matchYearPat_spec _ y hy).2.1
    have hmnd : '-' ∉ ms := allDigits_no_dash _ (matchMonthPat_spec _ m hm).1
    have hps : parse_simple_period s = some (.month, ⟨y, m, 1⟩) := by
      unfold parse_simple_period
      rw [hsdata, splitSep_append '-' ys ms hynd, splitSep_of_not_mem '-' ms hmnd]
      simp [hy, hm]
    exact period_of_simple s .month ⟨y, m, 1⟩ hps
  · intro ys ms ds y m d hsdata hy hm hdd hle
    have hynd : '-' ∉ ys := allDigits_no_dash _ (matchYearPat_spec _ y hy).2.1
    have hmnd : '-' ∉ ms := allDigits_no_dash _ (matchMonthPat_spec _ m hm).1
    have hdnd : '-' ∉ ds := allDigits_no_dash _ (matchDayPat_spec _ d hdd).1
    have hps : parse_simple_period s = some (.day, ⟨y, m, d⟩) := by
      unfold parse_simple_period
      rw [hsdata, splitSep_append '-' ys _ hynd, splitSep_append '-' ms ds hmnd,
        splitSep_of_not_mem '-' ds hdnd]
      simp [hy, hm, hdd, hle]
    exact period_of_simple s .day ⟨y, m, d⟩ hps

theorem C6_witness :
    matchYearPat ("2014" : String).data = some 2014 ∧
    period (.ofStr "2014") = some ⟨.ofU .year, ⟨2014, 1, 1⟩, .int 1⟩ :=
  ⟨by decide, (C6_simple "2014").1 2014 (by decide)⟩

set_option maxRecDepth 8000 in
/-- C7: the four Units form a strict total order Day < Month < Year <
Eternity determined solely by the weights 100/200/300/400, and equality
and ordering work transparently against every case-insensitive string
spelling: a string spelling a unit u in any case equals u under
Unit.__eq__ and compares against any Unit v exactly as u does by weight
(Python string-vs-unit comparisons dispatch to the reflected Unit
methods). -/
theorem C7_unit_order :
    (Unit.day.weight = 100 ∧ Unit.month.weight = 200 ∧ Unit.year.weight = 300 ∧
      Unit.eternity.weight = 400) ∧
    (Unit.ltU .day .month = true ∧ Unit.ltU .month .year = true ∧
      Unit.ltU .year .eternity = true) ∧
    (∀ a b : Unit, Unit.ltU a b = true ↔ a.weight < b.weight) ∧
    (∀ a b : Unit, (Unit.ltU a b = true ∧ a ≠ b ∧ Unit.ltU b a = false) ∨
      (Unit.ltU a b = false ∧ a = b ∧ Unit.ltU b a = false) ∨
      (Unit.ltU a b = false ∧ a ≠ b ∧ Unit.ltU b a = true)) ∧
    (∀ u : Unit, ∀ s ∈ u.caseVariants,
      u.eqStr s = true ∧
      ∀ v : Unit, strLtU s v = some (Unit.ltU u v) ∧ strGtU s v = some (Unit.ltU v u) ∧
        (v.eqStr s = true ↔ v = u)) := by
  decide

theorem C7_witness :
    ("DAY" ∈ Unit.day.caseVariants) ∧ Unit.eqStr .day "DAY" = true ∧
    strLtU "DAY" .month = some true := by
  refine ⟨by decide, (C7_unit_order.2.2.2.2 .day "DAY" (by decide)).1, ?_⟩
  rw [((C7_unit_order.2.2.2.2 .day "DAY" (by decide)).2 .month).1]
  decide

/-- C9: check_variable_defined_for_entity returns None when the
variable-lookup capability is unset or when the lookup finds no variable,
and raises the consistency error — whose message names the variable and
both entities' plural labels — exactly when the found variable's entity
is not value-equal (dataclass equality on class and key/plural/label/doc)
to the entity being checked. -/
theorem C9_check_variable (e : Entity) (name : String) :
    (e.varCapability = none → check_variable_defined_for_entity e name = none) ∧
    (∀ f, e.varCapability = some f → f name true = none →
      check_variable_defined_for_entity e name = none) ∧
    (∀ f v, e.varCapability = some f → f name true = some v →
      (Entity.eqData v.entity e = true →
        check_variable_defined_for_entity e name = none) ∧
      (Entity.eqData v.entity e = false →
        check_variable_defined_for_entity e name =
          some (mismatchMessage name e.plural v.entity.plural))) := by
  refine ⟨?_, ?_, ?_⟩
  · intro h
    simp only [check_variable_defined_for_entity, h]
  · intro f hf hn
    simp only [check_variable_defined_for_entity, hf, hn]
  · intro f v hf hv
    constructor
    · intro he
      simp only [check_variable_defined_for_entity, hf, hv, he, if_true]
    · intro he
      simp only [check_variable_defined_for_entity, hf, hv, he,
        Bool.false_eq_true, if_false]

theorem C9_witness :
    check_variable_defined_for_entity entA "va" =
      some (mismatchMessage "va" "persons" "households") := by
  have h := ((C9_check_variable entA "va").2.2 lookupW (.mk entB) rfl rfl).2 rfl
  exact h

/-- C10: parse_period validates the calendar correctness of the date
component at parse time: strings with a non-existent date part
("2014-13", "2014-02-30", alone or inside a compound form) fail, and more
generally every Period returned for a string input has a calendar-valid
start instant, even though Instant construction performs no validation. -/
theorem C10_parse_validates (s : String) :
    (∀ p, period (.ofStr s) = some p → p.start.Valid) ∧
    period (.ofStr "2014-13") = none ∧
    period (.ofStr "2014-02-30") = none ∧
    period (.ofStr "month:2014-13") = none ∧
    period (.ofStr "year:2014-02-30:2") = none := by
  refine ⟨?_, by decide, by decide, by decide, by decide⟩
  intro p hp
  rw [period_ofStr] at hp
  split at hp
  · injection hp with h'
    subst h'
    decide
  · cases hq : parse_simple_period s with
    | some x =>
      obtain ⟨u, st⟩ := x
      rw [hq] at hp
      injection hp with h'
      subst h'
      exact parse_simple_valid s u st hq
    | none =>
      simp only [hq] at hp
      split at hp
      · cases hsp : splitSep ':' s.data with
        | nil => rw [hsp] at hp; simp at hp
        | cons us t =>
          cases t with
          | nil => rw [hsp] at hp; simp at hp
          | cons ds rest =>
            rw [hsp] at hp
            by_cases hmem : String.mk us ∈ Unit.ethereal
            · simp only [hmem, if_true] at hp
              cases hq2 : parse_simple_period (String.mk ds) with
              | none => simp [hq2] at hp
              | some x2 =>
                obtain ⟨bu, st2⟩ := x2
                simp only [hq2] at hp
                cases rest with
                | nil =>
                  have hf := mkCompound_fields (String.mk us) bu st2 1 p hp
                  rw [hf.2.1]
                  exact parse_simple_valid _ bu st2 hq2
                | cons ss rest2 =>
                  cases rest2 with
                  | nil =>
                    cases hq3 : pyInt (String.mk ss) with
                    | none => simp [hq3] at hp
                    | some k =>
                      simp only [hq3] at hp
                      have hf := mkCompound_fields (String.mk us) bu st2 k p hp
                      rw [hf.2.1]
                      exact parse_simple_valid _ bu st2 hq2
                  | cons _ _ => simp at hp
            · simp [hmem] at hp
      · exact Option.noConfusion hp

theorem C10_witness :
    period (.ofStr "2014-02-28") = some ⟨.ofU .day, ⟨2014, 2, 28⟩, .int 1⟩ ∧
    (⟨2014, 2, 28⟩ : Instant).Valid :=
  ⟨by decide,
    (C10_parse_validates "2014-02-28").1 ⟨.ofU .day, ⟨2014, 2, 28⟩, .int 1⟩ (by decide)⟩

end OpenFisca
